import Mathlib

/-!
Verification of the gorsk `rsktrie` package: a shallow embedding of
`proof_verifier.go` and `trie_from_message.go` (RSK unified binary trie,
Merkle proof verification), together with theorems about the embedded code.

Bytes are modelled as `Nat` (the Go code only ever produces values 0..255;
all bit tests used by the source agree with `Nat.testBit` on that range).
Byte buffers are `List Nat`.  Go's `*bytes.Reader` is modelled by explicit
state passing of the not-yet-consumed suffix of the buffer.

The Keccak256 digest function lives outside the embedded core (it is called
but not defined in the translated files); every definition that needs it
takes it as an explicit parameter `keccak : List Nat → List Nat`, and the
theorems quantify over it.
-/

set_option maxRecDepth 40000

/-- Number of nonzero bytes in a buffer.  This is the termination measure for
the RSKIP-107 node parser: every (left/right-present) flags byte that triggers
a recursive embedded-node parse is nonzero, and an embedded child's bytes are
drawn from the strict suffix after that flags byte, zero-padded. -/
def nzCount (l : List Nat) : Nat :=
  l.countP (fun b => b ≠ 0)

/-- Go `bytes.Reader.ReadByte`: `none` models the `io.EOF` error. -/
def readByte (st : List Nat) : Option (Nat × List Nat) :=
  match st with
  | [] => none
  | b :: rest => some (b, rest)

/-- Go `bytes.Reader.Read` into a `make([]byte, n)` destination, keeping the
exact stdlib semantics the source relies on: at EOF (empty reader) it reports
`io.EOF`; otherwise it fills as many of the `n` bytes as are available and
reports NO error, leaving the remaining destination bytes zero (from `make`).
Returns the destination buffer contents and the new reader state. -/
def readFull (st : List Nat) (n : Nat) : Option (List Nat × List Nat) :=
  if st.isEmpty then none
  else some (st.take n ++ List.replicate (n - st.length) 0, st.drop n)

/-- Bits of one byte, most-significant first (spec §4.1, Bit-Path Codec). -/
def byteToBits (b : Nat) : List Bool :=
  [b.testBit 7, b.testBit 6, b.testBit 5, b.testBit 4,
   b.testBit 3, b.testBit 2, b.testBit 1, b.testBit 0]

/-- Bits of a byte sequence, MSB-first within each byte. -/
def bytesToBits (l : List Nat) : List Bool :=
  l.flatMap byteToBits

/-- Modelled from the spec (§3 BitPath, §4.1): the `TrieKeySlice` bit-path
type used by the source but defined outside the translated files.  An ordered
immutable sequence of bits with its length. -/
structure TrieKeySlice where
  bits : List Bool
deriving DecidableEq, Repr

/-- Modelled from the spec: `TrieKeySliceEmpty()`, the empty bit path. -/
def TrieKeySliceEmpty : TrieKeySlice := ⟨[]⟩

/-- Modelled from the spec (§4.1 `fromBytes`): `TrieKeySliceFromKey` expands a
byte key into a bit path of length `8*len(key)`, MSB-first. -/
def TrieKeySliceFromKey (key : List Nat) : TrieKeySlice :=
  ⟨bytesToBits key⟩

/-- Modelled from the spec (§4.3a): decode a bit path of `pathLen` bits from
its `ceil(pathLen/8)`-byte MSB-first encoding. -/
def TrieKeySliceFromEncodedFull (encoded : List Nat) (pathLen : Nat) : TrieKeySlice :=
  ⟨(bytesToBits encoded).take pathLen⟩

/-- Modelled from the spec: the Orchid-format variant reading the encoded path
from a slice `message[position : position+lencoded]`. -/
def TrieKeySliceFromEncoded (message : List Nat) (position lshared lencoded : Nat) :
    TrieKeySlice :=
  TrieKeySliceFromEncodedFull ((message.drop position).take lencoded) lshared

/-- Modelled from the spec: `keySlice.Length()`. -/
def TrieKeySlice.Length (s : TrieKeySlice) : Nat := s.bits.length

/-- Modelled from the spec: `keySlice.Get(i)`, the i-th bit.  The source only
ever calls it in bounds; out of bounds we default to `false`. -/
def TrieKeySlice.Get (s : TrieKeySlice) (i : Nat) : Bool := s.bits.getD i false

/-- Modelled from the spec (§4.2): result of `ReadVarInt` — the decoded value
and the number of bytes the encoding occupies. -/
structure VarInt where
  value : Nat
  size : Nat
deriving DecidableEq, Repr

/-- Modelled from the spec (§4.2): `ReadVarInt(buffer, offset)`, RSK's
Bitcoin-style variable-length unsigned integer: a first byte below 0xFD is the
value itself; 0xFD/0xFE/0xFF announce a 2/4/8-byte little-endian integer.
`none` models the truncated-input error. -/
def ReadVarInt (buffer : List Nat) (offset : Nat) : Option VarInt :=
  match buffer.drop offset with
  | [] => none
  | b :: rest =>
    if b < 0xFD then some ⟨b, 1⟩
    else if b = 0xFD then
      match rest with
      | b0 :: b1 :: _ => some ⟨b0 + 256 * b1, 3⟩
      | _ => none
    else if b = 0xFE then
      match rest with
      | b0 :: b1 :: b2 :: b3 :: _ =>
        some ⟨b0 + 256 * (b1 + 256 * (b2 + 256 * b3)), 5⟩
      | _ => none
    else
      match rest with
      | b0 :: b1 :: b2 :: b3 :: b4 :: b5 :: b6 :: b7 :: _ =>
        some ⟨b0 + 256 * (b1 + 256 * (b2 + 256 * (b3 + 256 * (b4 + 256 *
          (b5 + 256 * (b6 + 256 * b7)))))), 9⟩
      | _ => none

/-- Modelled from the spec (§4.2): `DecodeUint24(buffer, offset)`, a 3-byte
big-endian unsigned integer. -/
def DecodeUint24 (buffer : List Nat) (offset : Nat) : Nat :=
  buffer.getD offset 0 * 65536 + buffer.getD (offset + 1) 0 * 256 +
    buffer.getD (offset + 2) 0

/-- Modelled from the spec (§9): an external hash→value store; `FromMessage`
is invoked with `nil` for it by the proof verifier. -/
def TrieStore : Type := List Nat → Option (List Nat)

mutual
/-- Modelled from the spec (§3 TrieNode): one binary-trie node, the result of
`NewTrieFull(store, sharedPath, value, left, right, valueLength, valueHash,
childrenSize)` (the store handle itself carries no data we model). -/
inductive Trie where
  | mk : TrieKeySlice → Option (List Nat) → NodeReference → NodeReference →
      Nat → Option (List Nat) → Option VarInt → Trie
/-- Modelled from the spec (§3 NodeReference): tagged union
`Empty | Hash(32-byte digest) | Embedded(owned TrieNode)` covering
`NodeReferenceEmpty()`, `NewNodeReference(store, nil, hash)` and
`NewNodeReference(store, node, nil)`. -/
inductive NodeReference where
  | empty : NodeReference
  | hashRef : List Nat → NodeReference
  | embedded : Trie → NodeReference
end

deriving instance DecidableEq for Except

deriving instance DecidableEq for Trie, NodeReference

/-- Field accessor: `node.sharedPath`. -/
def Trie.sharedPath : Trie → TrieKeySlice
  | .mk sp _ _ _ _ _ _ => sp

/-- Field accessor: the node's inline value (Go `nil` is `none`). -/
def Trie.value : Trie → Option (List Nat)
  | .mk _ v _ _ _ _ _ => v

/-- Field accessor: `node.left`. -/
def Trie.left : Trie → NodeReference
  | .mk _ _ l _ _ _ _ => l

/-- Field accessor: `node.right`. -/
def Trie.right : Trie → NodeReference
  | .mk _ _ _ r _ _ _ => r

/-- Modelled from the spec: `node.GetValue()` returns the stored value. -/
def Trie.GetValue (t : Trie) : Option (List Nat) := t.value

/-- Modelled from the spec: `ref.IsEmpty()`. -/
def NodeReference.IsEmpty : NodeReference → Bool
  | .empty => true
  | _ => false

/-- Errors raised inside `deserializeSharedPath`; each constructor is one
`return nil, err` site of the Go function. -/
inductive SharedPathError where
  /-- the initial `ReadByte` hit EOF -/
  | readLengthByte
  /-- the 255-branch `Read(remaining)` hit EOF (empty reader) -/
  | readRemaining
  /-- wrapped `read varint for path length` error -/
  | readVarIntForLength
  /-- wrapped `read encoded path` error -/
  | readEncodedPath
deriving DecidableEq, Repr

/-- Errors raised by `FromMessage` / `fromMessageRSKIP107` /
`fromMessageOrchid`; each constructor is one `fmt.Errorf` site.  For the child
sections the Boolean is `true` for the left child, `false` for the right. -/
inductive MessageError where
  | emptyMessage
  | messageTooShort
  | readFlags
  | sharedPathErr (e : SharedPathError)
  | readEmbeddedLength (left : Bool)
  | readEmbeddedNode (left : Bool)
  | parseEmbedded (left : Bool) (e : MessageError)
  | readHash (left : Bool)
  | readChildrenSize
  | readValueHash
  | readValueLength
  | readValue
  | orchidTooShort
  | invalidArity (n : Nat)
  | orchidTooShortSharedPath
  | orchidTooShortLeftHash
  | orchidTooShortRightHash
  | orchidTooShortValueHash
  /-- fuel marker of the bounded parser; proved unreachable for the fuel the
  wrapper supplies (see `fromMessageF_stable`) -/
  | recursionLimit
deriving DecidableEq, Repr

/-- `calculateEncodedLength`: bytes needed for a path of `bitLength` bits. -/
def calculateEncodedLength (bitLength : Nat) : Nat :=
  if bitLength = 0 then 0 else (bitLength + 7) / 8

/-- `deserializeSharedPath` from `trie_from_message.go`.  The result pairs the
decoded path with the state the CALLER's reader is left in.  In the `b = 255`
branch the Go code drains the shared reader with `buf.Read(remaining)` and
then rebinds the local variable `buf` to a fresh reader (`buf =
bytes.NewReader(remaining[vi.Size:])`), which does not affect the caller's
reader; so in that branch the caller's state is `[]` no matter how many bytes
follow the encoded path. -/
def deserializeSharedPath (buf : List Nat) :
    Except SharedPathError (TrieKeySlice × List Nat) :=
  match buf with
  | [] => .error .readLengthByte
  | lengthByte :: rest =>
    if lengthByte ≤ 31 then
      -- Range 1-32: byte = lshared - 1
      let pathLen := lengthByte + 1
      let encodedLen := calculateEncodedLength pathLen
      match readFull rest encodedLen with
      | none => .error .readEncodedPath
      | some (encodedBytes, rest1) =>
        .ok (TrieKeySliceFromEncodedFull encodedBytes pathLen, rest1)
    else if lengthByte ≤ 254 then
      -- Range 160-382: byte = lshared - 128
      let pathLen := lengthByte + 128
      let encodedLen := calculateEncodedLength pathLen
      match readFull rest encodedLen with
      | none => .error .readEncodedPath
      | some (encodedBytes, rest1) =>
        .ok (TrieKeySliceFromEncodedFull encodedBytes pathLen, rest1)
    else
      -- byte == 255: read VarInt from all remaining bytes; the caller's
      -- reader is drained here.
      if rest.isEmpty then .error .readRemaining
      else
        match ReadVarInt rest 0 with
        | none => .error .readVarIntForLength
        | some vi =>
          let localBuf := rest.drop vi.size
          let pathLen := vi.value
          let encodedLen := calculateEncodedLength pathLen
          if encodedLen = 0 then .ok (TrieKeySliceEmpty, [])
          else
            match readFull localBuf encodedLen with
            | none => .error .readEncodedPath
            | some (encodedBytes, _) =>
              .ok (TrieKeySliceFromEncodedFull encodedBytes pathLen, [])

/-- One child-reference section of the RSKIP-107 format (left when
`isLeft = true`): either a length-prefixed embedded node blob parsed by the
supplied recursive parser, or a 32-byte hash reference. -/
def parseChildRef (rec : List Nat → Except MessageError Trie) (isLeft : Bool)
    (embeddedFlag : Bool) (st : List Nat) :
    Except MessageError (NodeReference × List Nat) :=
  if embeddedFlag then
    match readByte st with
    | none => .error (.readEmbeddedLength isLeft)
    | some (lengthByte, st1) =>
      match readFull st1 lengthByte with
      | none => .error (.readEmbeddedNode isLeft)
      | some (embeddedNode, st2) =>
        match rec embeddedNode with
        | .error e => .error (.parseEmbedded isLeft e)
        | .ok node => .ok (.embedded node, st2)
  else
    match readFull st 32 with
    | none => .error (.readHash isLeft)
    | some (hashBytes, st1) => .ok (.hashRef hashBytes, st1)

/-- The children-size section: the Go code drains the reader into `remaining`
(ignoring the read error, so `remaining` is just the unread suffix), parses a
VarInt at offset 0 and rebinds `buf` to a fresh reader over the bytes after
the VarInt — this rebinding is local to `fromMessageRSKIP107` itself, so
there it does take effect. -/
def readChildrenSizeSection (st : List Nat) :
    Except MessageError (VarInt × List Nat) :=
  match ReadVarInt st 0 with
  | none => .error .readChildrenSize
  | some vi => .ok (vi, st.drop vi.size)

/-- The value section of the RSKIP-107 format: long values yield a 32-byte
value hash plus 3-byte length (value stays absent); otherwise all remaining
bytes are the inline value.  Result: (value, valueLength, valueHash). -/
def readValueSection (hasLongVal : Bool) (st : List Nat) :
    Except MessageError (Option (List Nat) × Nat × Option (List Nat)) :=
  if hasLongVal then
    match readFull st 32 with
    | none => .error .readValueHash
    | some (valueHash, st1) =>
      match readFull st1 3 with
      | none => .error .readValueLength
      | some (lvalueBytes, _) =>
        .ok (none, DecodeUint24 lvalueBytes 0, some valueHash)
  else
    if st.length > 0 then .ok (some st, st.length, none)
    else .ok (none, 0, none)

/-- One layer of `fromMessageRSKIP107`, parameterised by the parser used for
embedded children.  Mirrors the Go parsing order: flags byte, shared path,
left section, right section, children-size VarInt (only if some child is
present), value section. -/
def fromMessageBody (store : Option TrieStore)
    (rec : List Nat → Except MessageError Trie) (message : List Nat) :
    Except MessageError Trie :=
  match message with
  | [] => .error .messageTooShort
  | flags :: rest =>
    let hasLongVal := flags.testBit 5
    let sharedPrefixPresent := flags.testBit 4
    let leftNodePresent := flags.testBit 3
    let rightNodePresent := flags.testBit 2
    let leftNodeEmbedded := flags.testBit 1
    let rightNodeEmbedded := flags.testBit 0
    match (if sharedPrefixPresent then
             match deserializeSharedPath rest with
             | .error e => .error (MessageError.sharedPathErr e)
             | .ok r => .ok r
           else .ok (TrieKeySliceEmpty, rest) :
           Except MessageError (TrieKeySlice × List Nat)) with
    | .error e => .error e
    | .ok (sharedPath, buf1) =>
      match (if leftNodePresent then parseChildRef rec true leftNodeEmbedded buf1
             else .ok (NodeReference.empty, buf1) :
             Except MessageError (NodeReference × List Nat)) with
      | .error e => .error e
      | .ok (left, buf2) =>
        match (if rightNodePresent then parseChildRef rec false rightNodeEmbedded buf2
               else .ok (NodeReference.empty, buf2) :
               Except MessageError (NodeReference × List Nat)) with
        | .error e => .error e
        | .ok (right, buf3) =>
          match (if leftNodePresent || rightNodePresent then
                   match readChildrenSizeSection buf3 with
                   | .error e => Except.error e
                   | .ok (vi, st) => Except.ok (some vi, st)
                 else .ok (none, buf3) :
                 Except MessageError (Option VarInt × List Nat)) with
          | .error e => .error e
          | .ok (childrenSize, buf4) =>
            match readValueSection hasLongVal buf4 with
            | .error e => .error e
            | .ok (value, valueLength, valueHash) =>
              .ok (Trie.mk sharedPath value left right valueLength valueHash
                childrenSize)

/-- Fuel-bounded iteration of `fromMessageBody`.  `fromMessageF_stable` below
shows the result does not depend on the fuel once it exceeds the number of
nonzero bytes of the message, which justifies the fuel chosen by
`fromMessageRSKIP107`. -/
def fromMessageF (store : Option TrieStore) :
    Nat → List Nat → Except MessageError Trie
  | 0, _ => .error .recursionLimit
  | fuel + 1, message => fromMessageBody store (fromMessageF store fuel) message

/-- `fromMessageRSKIP107` from `trie_from_message.go`. -/
def fromMessageRSKIP107 (message : List Nat) (store : Option TrieStore) :
    Except MessageError Trie :=
  fromMessageF store (nzCount message + 1) message

/-- `fromMessageOrchid` from `trie_from_message.go` (legacy pre-RSKIP-107
format, explicit cursor arithmetic over the message bytes). -/
def fromMessageOrchid (message : List Nat) (store : Option TrieStore) :
    Except MessageError Trie :=
  if message.length < 6 then .error .orchidTooShort
  else
    let arity := message.getD 0 0
    if arity ≠ 2 then .error (.invalidArity arity)
    else
      let flags := message.getD 1 0
      let hasLongVal := flags.testBit 1
      let bhashes := message.getD 2 0 * 256 + message.getD 3 0
      let lshared := message.getD 4 0 * 256 + message.getD 5 0
      let lencoded := calculateEncodedLength lshared
      if lshared > 0 ∧ message.length - 6 < lencoded then
        .error .orchidTooShortSharedPath
      else
        let sharedPath := if lshared > 0 then
            TrieKeySliceFromEncoded message 6 lshared lencoded
          else TrieKeySliceEmpty
        let cur1 := if lshared > 0 then 6 + lencoded else 6
        if bhashes.testBit 0 ∧ message.length - cur1 < 32 then
          .error .orchidTooShortLeftHash
        else
          let left := if bhashes.testBit 0 then
              NodeReference.hashRef ((message.drop cur1).take 32)
            else .empty
          let cur2 := if bhashes.testBit 0 then cur1 + 32 else cur1
          if bhashes.testBit 1 ∧ message.length - cur2 < 32 then
            .error .orchidTooShortRightHash
          else
            let right := if bhashes.testBit 1 then
                NodeReference.hashRef ((message.drop cur2).take 32)
              else .empty
            let cur3 := if bhashes.testBit 1 then cur2 + 32 else cur2
            if hasLongVal then
              if message.length - cur3 < 32 then .error .orchidTooShortValueHash
              else
                let valueHash := (message.drop cur3).take 32
                let value := match store with
                  | some s => s valueHash
                  | none => none
                let valueLength := match value with
                  | some v => v.length
                  | none => 0
                .ok (Trie.mk sharedPath value left right valueLength
                  (some valueHash) none)
            else
              let rem := message.length - cur3
              if rem > 0 then
                .ok (Trie.mk sharedPath (some (message.drop cur3)) left right
                  rem none none)
              else
                .ok (Trie.mk sharedPath none left right 0 none none)

/-- `FromMessage` from `trie_from_message.go`: dispatch between the Orchid
format (first byte 2) and the RSKIP-107 format. -/
def FromMessage (message : List Nat) (store : Option TrieStore) :
    Except MessageError Trie :=
  match message with
  | [] => .error .emptyMessage
  | b :: _ =>
    if b = 2 then fromMessageOrchid message store
    else fromMessageRSKIP107 message store

/-- `DomainPrefix` from the key mapper. -/
def DomainPrefixBytes : List Nat := [0x00]

/-- `StoragePrefix` from the key mapper (MSB 0 for branching). -/
def StoragePrefixBytes : List Nat := [0x00]

/-- `CodePrefix` from the key mapper (MSB 1 for branching). -/
def CodePrefixBytes : List Nat := [0x80]

/-- `SecureKeyPrefix`: the first 10 bytes of `keccak(key)`.  `keccak` is the
Keccak256 digest, supplied as a parameter (its implementation is outside the
embedded files). -/
def SecureKeyPrefixOf (keccak : List Nat → List Nat) (key : List Nat) :
    List Nat :=
  (keccak key).take 10

/-- `stripLeadingZeros`: drop leading zero bytes; an all-zero input yields the
empty slice. -/
def stripLeadingZeros (data : List Nat) : List Nat :=
  match data with
  | [] => []
  | b :: rest => if b ≠ 0 then b :: rest else stripLeadingZeros rest

/-- `GetAccountKey`: `DomainPrefix || keccak(address)[:10] || address`. -/
def GetAccountKey (keccak : List Nat → List Nat) (addr : List Nat) :
    List Nat :=
  DomainPrefixBytes ++ SecureKeyPrefixOf keccak addr ++ addr

/-- `GetCodeKey`: account key followed by the code prefix byte. -/
def GetCodeKey (keccak : List Nat → List Nat) (addr : List Nat) : List Nat :=
  GetAccountKey keccak addr ++ CodePrefixBytes

/-- `GetAccountStoragePrefixKey`: account key followed by the storage prefix
byte. -/
def GetAccountStoragePrefixKey (keccak : List Nat → List Nat)
    (addr : List Nat) : List Nat :=
  GetAccountKey keccak addr ++ StoragePrefixBytes

/-- `GetAccountStorageKey`: storage-prefix key, then `keccak(slot)[:10]`, then
the slot with leading zero bytes stripped. -/
def GetAccountStorageKey (keccak : List Nat → List Nat) (addr : List Nat)
    (storageKey : List Nat) : List Nat :=
  GetAccountStoragePrefixKey keccak addr ++
    SecureKeyPrefixOf keccak storageKey ++ stripLeadingZeros storageKey

/-- Error kinds of the trusted RLP library call `rlp.DecodeBytes(b, &[]byte)`
(spec §1 treats general RLP decode as an external trusted library; modelled
here from the RLP byte-string rules that library implements). -/
inductive RLPError where
  | eofErr
  | canonSize
  | valueTooLarge
  | expectedString
  | moreThanOneValue
deriving DecidableEq, Repr

/-- RLP-decode of a single byte-string value consuming the whole input, as
performed by `rlp.DecodeBytes(rlpNode, &serializedNode)`: canonical
single-byte / short-string / long-string forms; a list head or leftover bytes
are errors. -/
def decodeRLPString (input : List Nat) : Except RLPError (List Nat) :=
  match input with
  | [] => .error .eofErr
  | b0 :: rest =>
    if b0 ≤ 0x7F then
      if rest = [] then .ok [b0] else .error .moreThanOneValue
    else if b0 ≤ 0xB7 then
      let size := b0 - 0x80
      if rest.length < size then .error .valueTooLarge
      else if size = 1 ∧ rest.getD 0 0 < 0x80 then .error .canonSize
      else if size < rest.length then .error .moreThanOneValue
      else .ok (rest.take size)
    else if b0 ≤ 0xBF then
      let lenlen := b0 - 0xB7
      if rest.length < lenlen then .error .eofErr
      else if rest.getD 0 0 = 0 then .error .canonSize
      else
        let size := (rest.take lenlen).foldl (fun a b => a * 256 + b) 0
        if size < 56 then .error .canonSize
        else if rest.length - lenlen < size then .error .valueTooLarge
        else if size < rest.length - lenlen then .error .moreThanOneValue
        else .ok ((rest.drop lenlen).take size)
    else .error .expectedString

/-- Errors of `verifyProof` and its callers; each constructor is one
`fmt.Errorf` site of `proof_verifier.go` (payloads mirror the formatted
arguments). -/
inductive VerifyError where
  | emptyProof
  | rlpDecodeFailed (i : Nat) (e : RLPError)
  | parseFailed (i : Nat) (e : MessageError)
  | rootNotFound (h : List Nat)
  | keyTooShort (pos : Nat)
  | missingEmbeddedChild
  | missingProofNode (h : List Nat)
  /-- fuel marker of the bounded traversal; `walk_fuel` shows it is
  unreachable for the fuel `walkRun` supplies -/
  | loopLimit
deriving DecidableEq, Repr

/-- The node-map building loop of `verifyProof`: each proof node is
RLP-unwrapped, hashed over the unwrapped serialization, parsed with
`FromMessage(serializedNode, nil)` and stored in a hash-indexed map
(`nodeMap[string(nodeHash)] = entry`, later insertions overwriting). -/
def buildNodeMap (keccak : List Nat → List Nat) :
    List (List Nat) → Nat → (List Nat → Option Trie) →
    Except VerifyError (List Nat → Option Trie)
  | [], _, m => .ok m
  | rlpNode :: restNodes, i, m =>
    match decodeRLPString rlpNode with
    | .error e => .error (.rlpDecodeFailed i e)
    | .ok serializedNode =>
      let nodeHash := keccak serializedNode
      match FromMessage serializedNode none with
      | .error e => .error (.parseFailed i e)
      | .ok node =>
        buildNodeMap keccak restNodes (i + 1)
          (fun q => if q = nodeHash then some node else m q)

/-- Fuel-bounded version of the traversal loop of `verifyProof` (lines
143–205): check the shared path against the key (any mismatch is a
non-membership success), consume it, return the node value once the key is
exhausted, otherwise follow the child selected by the next key bit.  The
shared-path checks are written without Go's enclosing `Length() > 0` guard:
for a zero-length shared path both the `remaining < L` test (Nat subtraction)
and the mismatch scan over `range 0` are vacuously false, so the guard is
redundant.  One fuel unit is one loop iteration; `walkRun` supplies fuel
bounded by the key bit length, which `walk_fuel` proves sufficient. -/
def walkF (nm : List Nat → Option Trie) (ks : TrieKeySlice) :
    Nat → Nat → Trie → Except VerifyError (Option (List Nat))
  | 0, _, _ => .error .loopLimit
  | fuel + 1, keyPos, currentNode =>
    let sharedPath := currentNode.sharedPath
    let spLen := sharedPath.Length
    if ks.Length - keyPos < spLen then .error (.keyTooShort keyPos)
    else if (List.range spLen).any
        (fun i => ks.Get (keyPos + i) != sharedPath.Get i) then
      -- Key diverges from path - value doesn't exist
      .ok none
    else
      let keyPos1 := keyPos + spLen
      if ks.Length ≤ keyPos1 then
        -- Found the node - return its value
        .ok currentNode.GetValue
      else
        let nextBit := ks.Get keyPos1
        match (if nextBit = false then currentNode.left else currentNode.right) with
        | .empty =>
          -- No child - value doesn't exist
          .ok none
        | .embedded childNode => walkF nm ks fuel (keyPos1 + 1) childNode
        | .hashRef childHash =>
          match nm childHash with
          | none => .error (.missingProofNode childHash)
          | some childNode => walkF nm ks fuel (keyPos1 + 1) childNode

/-- The traversal loop with its canonical fuel (strictly more than the
remaining key bits). -/
def walkRun (nm : List Nat → Option Trie) (ks : TrieKeySlice) (keyPos : Nat)
    (node : Trie) : Except VerifyError (Option (List Nat)) :=
  walkF nm ks (ks.Length - keyPos + 1) keyPos node

/-- `verifyProof` from `proof_verifier.go`: reject an empty proof list, index
every supplied node by the Keccak256 hash of its RLP-unwrapped serialization,
locate the claimed root by hash, then walk the key bits. -/
def verifyProof (keccak : List Nat → List Nat) (expectedHash : List Nat)
    (key : List Nat) (proofNodes : List (List Nat)) :
    Except VerifyError (Option (List Nat)) :=
  if proofNodes = [] then .error .emptyProof
  else
    match buildNodeMap keccak proofNodes 0 (fun _ => none) with
    | .error e => .error e
    | .ok nodeMap =>
      let keySlice := TrieKeySliceFromKey key
      match nodeMap expectedHash with
      | none => .error (.rootNotFound expectedHash)
      | some rootNode => walkRun nodeMap keySlice 0 rootNode

/-- `AccountProofResult` from `proof_verifier.go`. -/
structure AccountProofResult where
  Valid : Bool
  Address : List Nat
  Value : Option (List Nat)
  Error : Option VerifyError
deriving DecidableEq, Repr

/-- `StorageProofResult` from `proof_verifier.go`. -/
structure StorageProofResult where
  Valid : Bool
  StorageKey : List Nat
  Value : Option (List Nat)
  Error : Option VerifyError
deriving DecidableEq, Repr

/-- `VerifyAccountProof`: derive the account trie key, run `verifyProof`, and
report a structured result; the second component is the function's top-level
`error` return value, which is always `nil`. -/
def VerifyAccountProof (keccak : List Nat → List Nat) (stateRoot : List Nat)
    (address : List Nat) (proofNodes : List (List Nat)) :
    AccountProofResult × Option VerifyError :=
  let trieKey := GetAccountKey keccak address
  match verifyProof keccak stateRoot trieKey proofNodes with
  | .error e => (⟨false, address, none, some e⟩, none)
  | .ok value => (⟨true, address, value, none⟩, none)

/-- `VerifyStorageProof`: derive the unified-trie storage key, run
`verifyProof`, and report a structured result; the second component is the
always-`nil` top-level `error` return value. -/
def VerifyStorageProof (keccak : List Nat → List Nat) (stateRoot : List Nat)
    (address : List Nat) (storageKey : List Nat)
    (proofNodes : List (List Nat)) :
    StorageProofResult × Option VerifyError :=
  let trieKey := GetAccountStorageKey keccak address storageKey
  match verifyProof keccak stateRoot trieKey proofNodes with
  | .error e => (⟨false, storageKey, none, some e⟩, none)
  | .ok value => (⟨true, storageKey, value, none⟩, none)

/-- `VerifyProofValue`: run `verifyProof` and compare the recovered value with
the expected bytes using `bytes.Equal` (for which a `nil` value and an empty
slice are equal).  The pair mirrors Go's `(bool, error)` return. -/
def VerifyProofValue (keccak : List Nat → List Nat) (stateRoot : List Nat)
    (key : List Nat) (expectedValue : List Nat)
    (proofNodes : List (List Nat)) : Bool × Option VerifyError :=
  match verifyProof keccak stateRoot key proofNodes with
  | .error e => (false, some e)
  | .ok value => (decide (value.getD [] = expectedValue), none)

/-! ## Measure lemmas for the bounded RSKIP-107 parser -/

theorem nzCount_take_le (l : List Nat) (n : Nat) :
    nzCount (l.take n) ≤ nzCount l := by
  have h := List.take_append_drop n l
  calc nzCount (l.take n) ≤ nzCount (l.take n) + nzCount (l.drop n) := Nat.le_add_right _ _
    _ = nzCount l := by rw [nzCount, nzCount, nzCount, ← List.countP_append, h]

theorem nzCount_drop_le (l : List Nat) (n : Nat) :
    nzCount (l.drop n) ≤ nzCount l := by
  have h := List.take_append_drop n l
  calc nzCount (l.drop n) ≤ nzCount (l.take n) + nzCount (l.drop n) := Nat.le_add_left _ _
    _ = nzCount l := by rw [nzCount, nzCount, nzCount, ← List.countP_append, h]

theorem nzCount_replicate_zero (n : Nat) : nzCount (List.replicate n 0) = 0 := by
  induction n with
  | zero => rfl
  | succ k ih => simpa [List.replicate_succ, nzCount, List.countP_cons] using ih

theorem nzCount_append_replicate_zero (a : List Nat) (n : Nat) :
    nzCount (a ++ List.replicate n 0) = nzCount a := by
  rw [nzCount, List.countP_append, ← nzCount, ← nzCount, nzCount_replicate_zero]
  omega

theorem nzCount_cons_of_ne (b : Nat) (rest : List Nat) (hb : b ≠ 0) :
    nzCount (b :: rest) = nzCount rest + 1 := by
  simp [nzCount, List.countP_cons, hb]

theorem readByte_eq {st : List Nat} {b : Nat} {st1 : List Nat}
    (h : readByte st = some (b, st1)) : st = b :: st1 := by
  cases st with
  | nil => simp [readByte] at h
  | cons x xs => simp [readByte] at h; simp [h.1, h.2]

theorem readFull_eq {st : List Nat} {n : Nat} {e st1 : List Nat}
    (h : readFull st n = some (e, st1)) :
    e = st.take n ++ List.replicate (n - st.length) 0 ∧ st1 = st.drop n := by
  unfold readFull at h
  split at h
  · simp at h
  · simp at h; exact ⟨h.1.symm, h.2.symm⟩

theorem readFull_nzCount_le {st : List Nat} {n : Nat} {e st1 : List Nat}
    (h : readFull st n = some (e, st1)) :
    nzCount e ≤ nzCount st ∧ nzCount st1 ≤ nzCount st := by
  obtain ⟨he, hst1⟩ := readFull_eq h
  subst he hst1
  exact ⟨by rw [nzCount_append_replicate_zero]; exact nzCount_take_le _ _,
    nzCount_drop_le _ _⟩

theorem deserializeSharedPath_state {buf : List Nat} {sp : TrieKeySlice}
    {st1 : List Nat} (h : deserializeSharedPath buf = .ok (sp, st1)) :
    nzCount st1 ≤ nzCount buf := by
  match buf with
  | [] => simp [deserializeSharedPath] at h
  | b :: rest =>
    have hrest : nzCount rest ≤ nzCount (b :: rest) := by
      simp only [nzCount, List.countP_cons]; omega
    simp only [deserializeSharedPath] at h
    split at h
    · split at h
      · exact absurd h (by simp)
      · rename_i heq
        injection h with h1
        injection h1 with h2 h3
        subst h3
        exact le_trans (readFull_nzCount_le heq).2 hrest
    · split at h
      · split at h
        · exact absurd h (by simp)
        · rename_i heq
          injection h with h1
          injection h1 with h2 h3
          subst h3
          exact le_trans (readFull_nzCount_le heq).2 hrest
      · split at h
        · exact absurd h (by simp)
        · split at h
          · exact absurd h (by simp)
          · split at h
            · injection h with h1
              injection h1 with h2 h3
              subst h3
              exact Nat.zero_le _
            · split at h
              · exact absurd h (by simp)
              · injection h with h1
                injection h1 with h2 h3
                subst h3
                exact Nat.zero_le _
theorem parseChildRef_state {g : List Nat → Except MessageError Trie}
    {isLeft emb : Bool} {st : List Nat} {ref : NodeReference} {st2 : List Nat}
    (h : parseChildRef g isLeft emb st = .ok (ref, st2)) :
    nzCount st2 ≤ nzCount st := by
  unfold parseChildRef at h
  split at h
  · split at h
    · exact absurd h (by simp)
    · rename_i lengthByte st1 heqB
      have hst : st = lengthByte :: st1 := readByte_eq heqB
      split at h
      · exact absurd h (by simp)
      · rename_i e1 st2a heqF
        split at h
        · exact absurd h (by simp)
        · injection h with h1
          injection h1 with h2 h3
          subst h3 hst
          refine le_trans (readFull_nzCount_le heqF).2 ?_
          simp only [nzCount, List.countP_cons]
          omega
  · split at h
    · exact absurd h (by simp)
    · rename_i hashBytes st1a heqF
      injection h with h1
      injection h1 with h2 h3
      subst h3
      exact (readFull_nzCount_le heqF).2

theorem parseChildRef_congr {g g2 : List Nat → Except MessageError Trie}
    {isLeft emb : Bool} {st : List Nat}
    (h : ∀ m, nzCount m ≤ nzCount st → g m = g2 m) :
    parseChildRef g isLeft emb st = parseChildRef g2 isLeft emb st := by
  unfold parseChildRef
  split
  · cases st with
    | nil => rfl
    | cons lengthByte st1 =>
      simp only [readByte]
      cases heqF : readFull st1 lengthByte with
      | none => simp [heqF]
      | some q =>
        obtain ⟨e1, st2a⟩ := q
        simp only [heqF]
        have hbound : nzCount e1 ≤ nzCount (lengthByte :: st1) := by
          refine le_trans (readFull_nzCount_le heqF).1 ?_
          simp only [nzCount, List.countP_cons]
          omega
        rw [h e1 hbound]
  · rfl
theorem fromMessageBody_congr {store : Option TrieStore}
    {g g2 : List Nat → Except MessageError Trie} {msg : List Nat}
    (h : ∀ m, nzCount m < nzCount msg → g m = g2 m) :
    fromMessageBody store g msg = fromMessageBody store g2 msg := by
  cases msg with
  | nil => rfl
  | cons flags rest =>
    simp only [fromMessageBody]
    split
    · rfl
    · rename_i sharedPath buf1 heqSP
      have hbuf1 : nzCount buf1 ≤ nzCount rest := by
        split at heqSP
        · split at heqSP
          · exact absurd heqSP (by simp)
          · rename_i heqD
            injection heqSP with h1
            subst h1
            exact deserializeSharedPath_state heqD
        · injection heqSP with h1
          injection h1 with h2 h3
          subst h3
          exact le_refl _
      have hL : (if flags.testBit 3 = true then parseChildRef g true (flags.testBit 1) buf1
            else Except.ok (NodeReference.empty, buf1)) =
          (if flags.testBit 3 = true then parseChildRef g2 true (flags.testBit 1) buf1
            else Except.ok (NodeReference.empty, buf1)) := by
        split
        · rename_i hbit
          apply parseChildRef_congr
          intro m hm
          apply h
          have hfne : flags ≠ 0 := by
            intro hz; rw [hz] at hbit; simp [Nat.zero_testBit] at hbit
          rw [nzCount_cons_of_ne _ _ hfne]
          omega
        · rfl
      rw [hL]
      split
      · rfl
      · rename_i left buf2 heqL
        have hbuf2 : nzCount buf2 ≤ nzCount buf1 := by
          split at heqL
          · exact parseChildRef_state heqL
          · injection heqL with h1
            injection h1 with h2 h3
            subst h3
            exact le_refl _
        have hR : (if flags.testBit 2 = true then parseChildRef g false (flags.testBit 0) buf2
              else Except.ok (NodeReference.empty, buf2)) =
            (if flags.testBit 2 = true then parseChildRef g2 false (flags.testBit 0) buf2
              else Except.ok (NodeReference.empty, buf2)) := by
          split
          · rename_i hbit
            apply parseChildRef_congr
            intro m hm
            apply h
            have hfne : flags ≠ 0 := by
              intro hz; rw [hz] at hbit; simp [Nat.zero_testBit] at hbit
            rw [nzCount_cons_of_ne _ _ hfne]
            omega
          · rfl
        rw [hR]

/-- Canonical-fuel lemma for the bounded RSKIP-107 parser: any fuel strictly
above the nonzero-byte count of the message gives the same result as the
canonical fuel `nzCount msg + 1` used by `fromMessageRSKIP107`. -/
theorem fromMessageF_canon {store : Option TrieStore} :
    ∀ f msg, nzCount msg < f →
      fromMessageF store f msg = fromMessageF store (nzCount msg + 1) msg := by
  intro f
  induction f using Nat.strong_induction_on with
  | _ f ih =>
    intro msg hlt
    match f, hlt with
    | fp + 1, hlt =>
      show fromMessageBody store (fromMessageF store fp) msg =
        fromMessageBody store (fromMessageF store (nzCount msg)) msg
      apply fromMessageBody_congr
      intro m hm
      have h1 : fromMessageF store fp m = fromMessageF store (nzCount m + 1) m :=
        ih fp (Nat.lt_succ_self _) m (by omega)
      have h2 : fromMessageF store (nzCount msg) m =
          fromMessageF store (nzCount m + 1) m :=
        ih (nzCount msg) (by omega) m hm
      rw [h1, h2]

/-- Fuel independence of the bounded RSKIP-107 parser, justifying the fuel
`fromMessageRSKIP107` supplies. -/
theorem fromMessageF_stable {store : Option TrieStore} {fuel1 fuel2 : Nat}
    {msg : List Nat} (h1 : nzCount msg < fuel1) (h2 : nzCount msg < fuel2) :
    fromMessageF store fuel1 msg = fromMessageF store fuel2 msg := by
  rw [fromMessageF_canon fuel1 msg h1, fromMessageF_canon fuel2 msg h2]

/-- `fromMessageRSKIP107` equals the bounded parser at every sufficient fuel. -/
theorem fromMessageRSKIP107_eq_fuel {store : Option TrieStore} {fuel : Nat}
    {msg : List Nat} (h : nzCount msg < fuel) :
    fromMessageRSKIP107 msg store = fromMessageF store fuel msg :=
  (fromMessageF_stable h (Nat.lt_succ_self _)).symm
/-! ## Fuel lemmas for the traversal loop -/

theorem walkF_stable (nm : List Nat → Option Trie) (ks : TrieKeySlice) :
    ∀ f1 f2 keyPos node, ks.Length - keyPos < f1 → ks.Length - keyPos < f2 →
      walkF nm ks f1 keyPos node = walkF nm ks f2 keyPos node := by
  intro f1
  induction f1 with
  | zero => intro f2 keyPos node h1 h2; omega
  | succ f ih =>
    intro f2 keyPos node h1 h2
    match f2, h2 with
    | f2p + 1, h2 =>
      simp only [walkF]
      split
      · rfl
      · split
        · rfl
        · split
          · rfl
          · split
            · rfl
            · apply ih <;> omega
            · split
              · rfl
              · apply ih <;> omega

theorem walkF_ne_loopLimit (nm : List Nat → Option Trie) (ks : TrieKeySlice) :
    ∀ f keyPos node, ks.Length - keyPos < f →
      walkF nm ks f keyPos node ≠ .error .loopLimit := by
  intro f
  induction f with
  | zero => intro keyPos node h1; omega
  | succ f ih =>
    intro keyPos node h1
    simp only [walkF]
    split
    · simp
    · split
      · simp
      · split
        · simp
        · split
          · simp
          · apply ih; omega
          · split
            · simp
            · apply ih; omega
/-! ## Node-map lemmas -/

theorem buildNodeMap_total (keccak : List Nat → List Nat) :
    ∀ (l : List (List Nat)) (i : Nat) (m : List Nat → Option Trie),
      (∀ pn ∈ l, ∃ s, decodeRLPString pn = .ok s ∧
        ∃ t, FromMessage s none = .ok t) →
      ∃ nm, buildNodeMap keccak l i m = .ok nm := by
  intro l
  induction l with
  | nil => intro i m hok; exact ⟨m, rfl⟩
  | cons pn0 rest ih =>
    intro i m hok
    obtain ⟨s0, hs0, t0, ht0⟩ := hok pn0 (List.mem_cons_self _ _)
    have hrest : ∀ pn ∈ rest, ∃ s, decodeRLPString pn = .ok s ∧
        ∃ t, FromMessage s none = .ok t :=
      fun pn hpn => hok pn (List.mem_cons_of_mem _ hpn)
    obtain ⟨nm, hnm⟩ := ih (i + 1)
      (fun q => if q = keccak s0 then some t0 else m q) hrest
    refine ⟨nm, ?_⟩
    simp only [buildNodeMap, hs0, ht0]
    exact hnm

theorem buildNodeMap_lookup_none (keccak : List Nat → List Nat) :
    ∀ (l : List (List Nat)) (i : Nat) (m : List Nat → Option Trie)
      (nm : List Nat → Option Trie), buildNodeMap keccak l i m = .ok nm →
      ∀ q, (∀ pn ∈ l, ∀ s, decodeRLPString pn = .ok s → keccak s ≠ q) →
      nm q = m q := by
  intro l
  induction l with
  | nil =>
    intro i m nm h q hno
    injection h with h1
    rw [← h1]
  | cons pn0 rest ih =>
    intro i m nm h q hno
    simp only [buildNodeMap] at h
    split at h
    · exact absurd h (by simp)
    · rename_i s0 hs0
      split at h
      · exact absurd h (by simp)
      · rename_i t0 ht0
        have hq0 : keccak s0 ≠ q := hno pn0 (List.mem_cons_self _ _) s0 hs0
        have := ih (i + 1) (fun q2 => if q2 = keccak s0 then some t0 else m q2)
          nm h q (fun pn hpn => hno pn (List.mem_cons_of_mem _ hpn))
        rw [this]
        exact if_neg (fun hqq => hq0 hqq.symm)

theorem buildNodeMap_lookup_some (keccak : List Nat → List Nat) :
    ∀ (l : List (List Nat)) (i : Nat) (m : List Nat → Option Trie)
      (nm : List Nat → Option Trie), buildNodeMap keccak l i m = .ok nm →
      (∀ pn1 pn2, pn1 ∈ l → pn2 ∈ l → ∀ s1 s2,
        decodeRLPString pn1 = .ok s1 → decodeRLPString pn2 = .ok s2 →
        keccak s1 = keccak s2 → s1 = s2) →
      ∀ q t, (∃ pn ∈ l, ∃ s, decodeRLPString pn = .ok s ∧ keccak s = q ∧
        FromMessage s none = .ok t) →
      nm q = some t := by
  intro l
  induction l with
  | nil =>
    intro i m nm h hinj q t hent
    obtain ⟨pn, hpn, _⟩ := hent
    exact absurd hpn (List.not_mem_nil _)
  | cons pn0 rest ih =>
    intro i m nm h hinj q t hent
    simp only [buildNodeMap] at h
    split at h
    · exact absurd h (by simp)
    · rename_i s0 hs0
      split at h
      · exact absurd h (by simp)
      · rename_i t0 ht0
        have hinjr : ∀ pn1 pn2, pn1 ∈ rest → pn2 ∈ rest → ∀ s1 s2,
            decodeRLPString pn1 = .ok s1 → decodeRLPString pn2 = .ok s2 →
            keccak s1 = keccak s2 → s1 = s2 :=
          fun pn1 pn2 h1 h2 => hinj pn1 pn2 (List.mem_cons_of_mem _ h1)
            (List.mem_cons_of_mem _ h2)
        obtain ⟨pn, hpn, s, hs, hq, ht⟩ := hent
        rcases List.mem_cons.mp hpn with rfl | hpnr
        · -- the entry is the head node
          have hss0 : s = s0 := by rw [hs] at hs0; injection hs0
          subst hss0
          have htt0 : t = t0 := by rw [ht] at ht0; injection ht0
          subst htt0
          by_cases hex : ∃ pn2 ∈ rest, ∃ s2, decodeRLPString pn2 = .ok s2 ∧
              keccak s2 = q
          · obtain ⟨pn2, hpn2, s2, hs2, hq2⟩ := hex
            have hs2s : s2 = s := hinj pn2 pn (List.mem_cons_of_mem _ hpn2)
              hpn s2 s hs2 hs (by rw [hq2, hq])
            subst hs2s
            exact ih (i + 1) _ nm h hinjr q t
              ⟨pn2, hpn2, s2, hs2, hq2, ht⟩
          · have hno : ∀ pn2 ∈ rest, ∀ s2, decodeRLPString pn2 = .ok s2 →
                keccak s2 ≠ q := by
              intro pn2 hpn2 s2 hs2 hq2
              exact hex ⟨pn2, hpn2, s2, hs2, hq2⟩
            rw [buildNodeMap_lookup_none keccak rest (i + 1) _ nm h q hno]
            simp [hq]
        · exact ih (i + 1) _ nm h hinjr q t ⟨pn, hpnr, s, hs, hq, ht⟩
theorem bytesToBits_length (l : List Nat) : (bytesToBits l).length = 8 * l.length := by
  induction l with
  | nil => rfl
  | cons b rest ih =>
    simp only [bytesToBits, List.flatMap_cons, List.length_append] at ih ⊢
    simp [byteToBits, ih]
    omega

/-- C7: during traversal, when the remaining unconsumed key bits are fewer
than the current node's shared-path bit length, the verifier's walk returns
the `key too short for shared path` error (the `MalformedProofError` of the
spec), not a non-membership success. -/
theorem walk_keyTooShort (nm : List Nat → Option Trie) (ks : TrieKeySlice)
    (keyPos : Nat) (node : Trie)
    (h : ks.Length - keyPos < node.sharedPath.Length) :
    walkRun nm ks keyPos node = .error (.keyTooShort keyPos) := by
  show walkF nm ks (ks.Length - keyPos + 1) keyPos node = _
  simp only [walkF]
  rw [if_pos h]

theorem walk_keyTooShort_witness :
    walkRun (fun _ => none) ⟨[true]⟩ 0
      (Trie.mk ⟨[false, false]⟩ none .empty .empty 0 none none) =
      .error (.keyTooShort 0) :=
  walk_keyTooShort _ _ _ _ (by decide)

/-- C8: the traversal loop of `verifyProof` terminates on every input: the
number of loop iterations is bounded by the key bit length, in that any fuel
exceeding the remaining key bits yields the canonical result `walkRun`, and
that result is never the out-of-fuel marker. -/
theorem walk_terminates (nm : List Nat → Option Trie) (ks : TrieKeySlice)
    (fuel keyPos : Nat) (node : Trie) (h : ks.Length - keyPos < fuel) :
    walkF nm ks fuel keyPos node = walkRun nm ks keyPos node ∧
    walkRun nm ks keyPos node ≠ .error .loopLimit :=
  ⟨walkF_stable nm ks fuel (ks.Length - keyPos + 1) keyPos node h
      (Nat.lt_succ_self _),
   walkF_ne_loopLimit nm ks (ks.Length - keyPos + 1) keyPos node
      (Nat.lt_succ_self _)⟩

theorem walk_terminates_witness :
    walkF (fun _ => none) ⟨[false]⟩ 5 0
      (Trie.mk ⟨[]⟩ (some [7]) .empty .empty 1 none none) =
      walkRun (fun _ => none) ⟨[false]⟩ 0
        (Trie.mk ⟨[]⟩ (some [7]) .empty .empty 1 none none) ∧
    walkRun (fun _ => none) ⟨[false]⟩ 0
      (Trie.mk ⟨[]⟩ (some [7]) .empty .empty 1 none none) ≠
      .error .loopLimit :=
  walk_terminates _ _ 5 0 _ (by decide)

/-- C1: a key-bit mismatch against the current node's shared path, and a next
key bit selecting an Empty child reference, are both non-membership successes
(`ok` with no value), never errors; and whenever `verifyProof` succeeds with
no value the `VerifyAccountProof` / `VerifyStorageProof` wrappers report
`Valid: true` with an absent value and no error. -/
theorem verifyProof_nonMembership :
    (∀ (nm : List Nat → Option Trie) (ks : TrieKeySlice) (keyPos : Nat)
      (node : Trie),
      ¬ (ks.Length - keyPos < node.sharedPath.Length) →
      (List.range node.sharedPath.Length).any
        (fun i => ks.Get (keyPos + i) != node.sharedPath.Get i) = true →
      walkRun nm ks keyPos node = .ok none) ∧
    (∀ (nm : List Nat → Option Trie) (ks : TrieKeySlice) (keyPos : Nat)
      (node : Trie),
      ¬ (ks.Length - keyPos < node.sharedPath.Length) →
      (List.range node.sharedPath.Length).any
        (fun i => ks.Get (keyPos + i) != node.sharedPath.Get i) = false →
      keyPos + node.sharedPath.Length < ks.Length →
      (if ks.Get (keyPos + node.sharedPath.Length) = false then node.left
       else node.right) = .empty →
      walkRun nm ks keyPos node = .ok none) ∧
    (∀ (keccak : List Nat → List Nat) (root addr : List Nat)
      (proofNodes : List (List Nat)),
      verifyProof keccak root (GetAccountKey keccak addr) proofNodes =
        .ok none →
      VerifyAccountProof keccak root addr proofNodes =
        (⟨true, addr, none, none⟩, none)) ∧
    (∀ (keccak : List Nat → List Nat) (root addr storageKey : List Nat)
      (proofNodes : List (List Nat)),
      verifyProof keccak root (GetAccountStorageKey keccak addr storageKey)
        proofNodes = .ok none →
      VerifyStorageProof keccak root addr storageKey proofNodes =
        (⟨true, storageKey, none, none⟩, none)) := by
  refine ⟨?_, ?_, ?_, ?_⟩
  · intro nm ks keyPos node h1 h2
    show walkF nm ks (ks.Length - keyPos + 1) keyPos node = _
    simp only [walkF]
    rw [if_neg h1, if_pos h2]
  · intro nm ks keyPos node h1 h2 h3 h4
    show walkF nm ks (ks.Length - keyPos + 1) keyPos node = _
    simp only [walkF]
    rw [if_neg h1, if_neg (by simp [h2]), if_neg (by omega), h4]
  · intro keccak root addr proofNodes h
    simp [VerifyAccountProof, h]
  · intro keccak root addr storageKey proofNodes h
    simp [VerifyStorageProof, h]

theorem verifyProof_nonMembership_witness :
    walkRun (fun _ => none) ⟨[false, false]⟩ 0
      (Trie.mk ⟨[true]⟩ none .empty .empty 0 none none) = .ok none ∧
    walkRun (fun _ => none) ⟨[false, false]⟩ 0
      (Trie.mk ⟨[false]⟩ none .empty .empty 0 none none) = .ok none ∧
    VerifyAccountProof (fun l => l) [16, 0, 128] (List.replicate 20 0)
      [[131, 16, 0, 128]] =
      (⟨true, List.replicate 20 0, none, none⟩, none) ∧
    VerifyStorageProof (fun l => l) [16, 0, 128] (List.replicate 20 0)
      (List.replicate 32 0) [[131, 16, 0, 128]] =
      (⟨true, List.replicate 32 0, none, none⟩, none) :=
  ⟨verifyProof_nonMembership.1 _ _ _ _ (by decide) (by decide),
   verifyProof_nonMembership.2.1 _ _ _ _ (by decide) (by decide) (by decide)
     (by decide),
   verifyProof_nonMembership.2.2.1 _ _ _ _ (by decide),
   verifyProof_nonMembership.2.2.2 _ _ _ _ _ (by decide)⟩
/-- C2: evaluation at failing inputs.  The message `[0x10, 0x0F, 0xFF]`
declares a 16-bit shared path whose encoding needs 2 bytes while only 1
remains; `fromMessageRSKIP107` nevertheless returns a node (the missing byte
is silently zero-filled by the partial `Read`), instead of the
`MalformedNodeError` the spec requires for truncation.  Likewise the
inconsistent flags byte `0x01` (right-embedded set without right-present) is
silently accepted rather than rejected. -/
theorem fromMessage_truncation_no_error :
    FromMessage [0x10, 0x0F, 0xFF] none =
      .ok (Trie.mk ⟨List.replicate 8 true ++ List.replicate 8 false⟩ none
        .empty .empty 0 none none) ∧
    FromMessage [0x01] none =
      .ok (Trie.mk ⟨[]⟩ none .empty .empty 0 none none) := by
  constructor
  · decide
  · decide

/-- C3: the shared-path length decoding is as claimed (`b+1` for `b ≤ 31`,
`b+128` for `32 ≤ b ≤ 254`, VarInt for `b = 255`) and for `b ≤ 254` the
caller's buffer is left immediately after the `ceil(len/8)` encoded path
bytes; but in the `b = 255` branch the function returns with the caller's
buffer drained (`[]`), losing any bytes after the encoded path — shown by the
concrete evaluation, where the trailing `0x07` disappears. -/
theorem deserializeSharedPath_spec :
    (∀ b rest, b ≤ 31 → calculateEncodedLength (b + 1) ≤ rest.length →
      deserializeSharedPath (b :: rest) =
        .ok (TrieKeySliceFromEncodedFull
              (rest.take (calculateEncodedLength (b + 1))) (b + 1),
             rest.drop (calculateEncodedLength (b + 1))) ∧
      (TrieKeySliceFromEncodedFull
        (rest.take (calculateEncodedLength (b + 1))) (b + 1)).Length = b + 1) ∧
    (∀ b rest, 32 ≤ b → b ≤ 254 →
      calculateEncodedLength (b + 128) ≤ rest.length →
      deserializeSharedPath (b :: rest) =
        .ok (TrieKeySliceFromEncodedFull
              (rest.take (calculateEncodedLength (b + 128))) (b + 128),
             rest.drop (calculateEncodedLength (b + 128))) ∧
      (TrieKeySliceFromEncodedFull
        (rest.take (calculateEncodedLength (b + 128))) (b + 128)).Length =
        b + 128) ∧
    (∀ rest sp st1, deserializeSharedPath (255 :: rest) = .ok (sp, st1) →
      st1 = []) ∧
    deserializeSharedPath [255, 1, 171, 7] = .ok (⟨[true]⟩, []) := by
  refine ⟨?_, ?_, ?_, by decide⟩
  · intro b rest hb hlen
    have hpos : 1 ≤ calculateEncodedLength (b + 1) := by
      unfold calculateEncodedLength
      split
      · omega
      · omega
    have hne : ¬ rest.isEmpty := by
      cases rest
      · simp at hlen; omega
      · simp
    constructor
    · simp only [deserializeSharedPath]
      rw [if_pos hb]
      unfold readFull
      rw [if_neg (by simp [hne])]
      have hz : calculateEncodedLength (b + 1) - rest.length = 0 := by omega
      simp [hz]
    · simp only [TrieKeySliceFromEncodedFull, TrieKeySlice.Length]
      rw [List.length_take, bytesToBits_length, List.length_take]
      have h8 : b + 1 ≤ 8 * calculateEncodedLength (b + 1) := by
        unfold calculateEncodedLength
        split
        · omega
        · omega
      omega
  · intro b rest hb1 hb2 hlen
    have hpos : 1 ≤ calculateEncodedLength (b + 128) := by
      unfold calculateEncodedLength
      split
      · omega
      · omega
    have hne : ¬ rest.isEmpty := by
      cases rest
      · simp at hlen; omega
      · simp
    constructor
    · simp only [deserializeSharedPath]
      rw [if_neg (by omega), if_pos hb2]
      unfold readFull
      rw [if_neg (by simp [hne])]
      have hz : calculateEncodedLength (b + 128) - rest.length = 0 := by omega
      simp [hz]
    · simp only [TrieKeySliceFromEncodedFull, TrieKeySlice.Length]
      rw [List.length_take, bytesToBits_length, List.length_take]
      have h8 : b + 128 ≤ 8 * calculateEncodedLength (b + 128) := by
        unfold calculateEncodedLength
        split
        · omega
        · omega
      omega
  · intro rest sp st1 h
    simp only [deserializeSharedPath] at h
    rw [if_neg (by omega), if_neg (by omega)] at h
    split at h
    · exact absurd h (by simp)
    · split at h
      · exact absurd h (by simp)
      · rename_i vi hvi
        split at h
        · injection h with h1
          injection h1 with h2 h3
          exact h3.symm
        · split at h
          · exact absurd h (by simp)
          · injection h with h1
            injection h1 with h2 h3
            exact h3.symm

theorem deserializeSharedPath_spec_witness :
    (deserializeSharedPath [0, 255] =
      .ok (TrieKeySliceFromEncodedFull [255] 1, []) ∧
     (TrieKeySliceFromEncodedFull [255] 1).Length = 1) ∧
    (deserializeSharedPath (40 :: List.replicate 21 17) =
      .ok (TrieKeySliceFromEncodedFull (List.replicate 21 17) 168, []) ∧
     (TrieKeySliceFromEncodedFull (List.replicate 21 17) 168).Length = 168) ∧
    ([] : List Nat) = [] := by
  refine ⟨?_, ?_, deserializeSharedPath_spec.2.2.1 [1, 171, 7] ⟨[true]⟩ []
    (by decide)⟩
  · have h := deserializeSharedPath_spec.1 0 [255] (by decide) (by decide)
    simpa using h
  · have h := deserializeSharedPath_spec.2.1 40 (List.replicate 21 17)
      (by decide) (by decide) (by decide)
    simpa using h

/-- C4: `GetAccountStorageKey` appends, after the secure prefix, an empty
raw-slot suffix for the all-zero slot (not a single `0x00` byte), and exactly
the one-byte suffix `0x01` for slot `0x00...01`. -/
theorem getAccountStorageKey_slots (keccak : List Nat → List Nat)
    (addr : List Nat) :
    GetAccountStorageKey keccak addr (List.replicate 32 0) =
      GetAccountStoragePrefixKey keccak addr ++
        SecureKeyPrefixOf keccak (List.replicate 32 0) ∧
    GetAccountStorageKey keccak addr (List.replicate 31 0 ++ [1]) =
      GetAccountStoragePrefixKey keccak addr ++
        SecureKeyPrefixOf keccak (List.replicate 31 0 ++ [1]) ++ [1] := by
  constructor
  · unfold GetAccountStorageKey
    have hz : stripLeadingZeros (List.replicate 32 0) = [] := by decide
    rw [hz, List.append_nil]
  · unfold GetAccountStorageKey
    have ho : stripLeadingZeros (List.replicate 31 0 ++ [1]) = [1] := by decide
    rw [ho, List.append_assoc]
/-- C5 counterexample: reordering the proof-node list can change the result
of `verifyProof`.  With one node whose RLP unwrapping succeeds but whose
parse fails (`0x80`, the RLP of the empty string) and one node that is not
valid RLP (`0xB8`, a truncated long-string header), the error reported
depends on which node the indexing loop meets first, refuting the claim that
any reordering yields the same result. -/
theorem verifyProof_order_sensitive :
    verifyProof (fun _ => []) [] [] [[0x80], [0xB8]] ≠
      verifyProof (fun _ => []) [] [] [[0xB8], [0x80]] := by
  decide

/-- C5 (amended): `verifyProof` is a pure function of its inputs (repeated
calls agree definitionally), and reordering the proof-node list preserves the
result provided every supplied node RLP-decodes and parses successfully and
nodes with equal hashes have equal serialized bytes — lookup is then by hash,
not position.  When some node is malformed, the reported error may depend on
the order (see the counterexample). -/
theorem verifyProof_perm_invariant (keccak : List Nat → List Nat)
    (root key : List Nat) (l1 l2 : List (List Nat)) (hperm : l1.Perm l2)
    (hok : ∀ pn ∈ l1, ∃ s, decodeRLPString pn = .ok s ∧
      ∃ t, FromMessage s none = .ok t)
    (hinj : ∀ pn1 pn2, pn1 ∈ l1 → pn2 ∈ l1 → ∀ s1 s2,
      decodeRLPString pn1 = .ok s1 → decodeRLPString pn2 = .ok s2 →
      keccak s1 = keccak s2 → s1 = s2) :
    verifyProof keccak root key l1 = verifyProof keccak root key l2 := by
  by_cases hnil : l1 = []
  · subst hnil
    rw [hperm.symm.eq_nil]
  · have hnil2 : l2 ≠ [] := by
      intro h2
      subst h2
      exact hnil hperm.eq_nil
    have hok2 : ∀ pn ∈ l2, ∃ s, decodeRLPString pn = .ok s ∧
        ∃ t, FromMessage s none = .ok t :=
      fun pn hpn => hok pn (hperm.mem_iff.mpr hpn)
    have hinj2 : ∀ pn1 pn2, pn1 ∈ l2 → pn2 ∈ l2 → ∀ s1 s2,
        decodeRLPString pn1 = .ok s1 → decodeRLPString pn2 = .ok s2 →
        keccak s1 = keccak s2 → s1 = s2 :=
      fun pn1 pn2 h1 h2 => hinj pn1 pn2 (hperm.mem_iff.mpr h1)
        (hperm.mem_iff.mpr h2)
    obtain ⟨nm1, hnm1⟩ := buildNodeMap_total keccak l1 0 (fun _ => none) hok
    obtain ⟨nm2, hnm2⟩ := buildNodeMap_total keccak l2 0 (fun _ => none) hok2
    have heq : nm1 = nm2 := by
      funext q
      by_cases hex : ∃ pn ∈ l1, ∃ s, decodeRLPString pn = .ok s ∧ keccak s = q
      · obtain ⟨pn, hpn, s, hs, hq⟩ := hex
        obtain ⟨s2, hs2, t, ht⟩ := hok pn hpn
        rw [hs] at hs2
        injection hs2 with hss
        subst hss
        have e1 : nm1 q = some t :=
          buildNodeMap_lookup_some keccak l1 0 _ nm1 hnm1 hinj q t
            ⟨pn, hpn, s, hs, hq, ht⟩
        have e2 : nm2 q = some t :=
          buildNodeMap_lookup_some keccak l2 0 _ nm2 hnm2 hinj2 q t
            ⟨pn, hperm.mem_iff.mp hpn, s, hs, hq, ht⟩
        rw [e1, e2]
      · push_neg at hex
        have e1 : nm1 q = none :=
          buildNodeMap_lookup_none keccak l1 0 _ nm1 hnm1 q
            (fun pn hpn s hs => hex pn hpn s hs)
        have e2 : nm2 q = none :=
          buildNodeMap_lookup_none keccak l2 0 _ nm2 hnm2 q
            (fun pn hpn s hs => hex pn (hperm.mem_iff.mpr hpn) s hs)
        rw [e1, e2]
    unfold verifyProof
    rw [if_neg hnil, if_neg hnil2, hnm1, hnm2, heq]

theorem verifyProof_perm_invariant_witness :
    verifyProof (fun l => l) [16, 0, 128] [] [[64], [131, 16, 0, 128]] =
      verifyProof (fun l => l) [16, 0, 128] [] [[131, 16, 0, 128], [64]] :=
  verifyProof_perm_invariant (fun l => l) [16, 0, 128] []
    [[64], [131, 16, 0, 128]] [[131, 16, 0, 128], [64]]
    (List.Perm.swap [131, 16, 0, 128] [64] [])
    (by
      intro pn hpn
      simp only [List.mem_cons, List.not_mem_nil, or_false] at hpn
      rcases hpn with rfl | rfl
      · exact ⟨[64], rfl, ⟨_, rfl⟩⟩
      · exact ⟨[16, 0, 128], rfl, ⟨_, rfl⟩⟩)
    (by
      intro pn1 pn2 h1 h2 s1 s2 hs1 hs2 hh
      exact hh)

/-- C6: before any traversal, `verifyProof` rejects an empty proof-node list
with the empty-proof error, and when every supplied node decodes and parses
but none hashes to the claimed root digest it rejects with the
root-not-found error. -/
theorem verifyProof_preTraversal (keccak : List Nat → List Nat)
    (root key : List Nat) (proofNodes : List (List Nat)) :
    (proofNodes = [] →
      verifyProof keccak root key proofNodes = .error .emptyProof) ∧
    (proofNodes ≠ [] →
      (∀ pn ∈ proofNodes, ∃ s, decodeRLPString pn = .ok s ∧
        (∃ t, FromMessage s none = .ok t) ∧ keccak s ≠ root) →
      verifyProof keccak root key proofNodes =
        .error (.rootNotFound root)) := by
  constructor
  · intro h
    subst h
    rfl
  · intro hne hall
    obtain ⟨nm, hnm⟩ := buildNodeMap_total keccak proofNodes 0 (fun _ => none)
      (fun pn hpn => by
        obtain ⟨s, hs, hts, hnr⟩ := hall pn hpn
        exact ⟨s, hs, hts⟩)
    have hroot : nm root = none := by
      rw [buildNodeMap_lookup_none keccak proofNodes 0 _ nm hnm root
        (fun pn hpn s hs => by
          obtain ⟨s2, hs2, hts, hnr⟩ := hall pn hpn
          rw [hs] at hs2
          injection hs2 with hss
          subst hss
          exact hnr)]
    unfold verifyProof
    rw [if_neg hne, hnm]
    simp [hroot]

theorem verifyProof_preTraversal_witness :
    verifyProof (fun l => l) (List.replicate 32 9) [3] [] =
      .error .emptyProof ∧
    verifyProof (fun l => l) (List.replicate 32 9) [3] [[64]] =
      .error (.rootNotFound (List.replicate 32 9)) :=
  ⟨(verifyProof_preTraversal (fun l => l) (List.replicate 32 9) [3] []).1 rfl,
   (verifyProof_preTraversal (fun l => l) (List.replicate 32 9) [3] [[64]]).2
     (by simp)
     (by
       intro pn hpn
       simp only [List.mem_cons, List.not_mem_nil, or_false] at hpn
       subst hpn
       exact ⟨[64], rfl, ⟨_, rfl⟩, by decide⟩)⟩

/-- C9: `VerifyAccountProof` and `VerifyStorageProof` always return a `nil`
top-level error, and in the structured result `Valid` is true exactly when
the `Error` field is `nil`: every failure is reported inside the result,
never escalated. -/
theorem wrappers_never_escalate (keccak : List Nat → List Nat)
    (root addr storageKey : List Nat) (proofNodes : List (List Nat)) :
    (VerifyAccountProof keccak root addr proofNodes).2 = none ∧
    ((VerifyAccountProof keccak root addr proofNodes).1.Valid = true ↔
      (VerifyAccountProof keccak root addr proofNodes).1.Error = none) ∧
    (VerifyStorageProof keccak root addr storageKey proofNodes).2 = none ∧
    ((VerifyStorageProof keccak root addr storageKey proofNodes).1.Valid =
        true ↔
      (VerifyStorageProof keccak root addr storageKey proofNodes).1.Error =
        none) := by
  cases ha : verifyProof keccak root (GetAccountKey keccak addr) proofNodes <;>
    cases hb : verifyProof keccak root
      (GetAccountStorageKey keccak addr storageKey) proofNodes <;>
    simp [VerifyAccountProof, VerifyStorageProof, ha, hb]

/-- C10: `VerifyProofValue` cannot distinguish a proven absence from a
present empty value: whenever `verifyProof` succeeds with no value, comparing
against an empty (or `nil`) expected value yields `true`, because the absent
value compares byte-equal to empty bytes. -/
theorem verifyProofValue_absence (keccak : List Nat → List Nat)
    (root key : List Nat) (proofNodes : List (List Nat))
    (h : verifyProof keccak root key proofNodes = .ok none) :
    VerifyProofValue keccak root key [] proofNodes = (true, none) := by
  unfold VerifyProofValue
  rw [h]
  simp

theorem verifyProofValue_absence_witness :
    VerifyProofValue (fun l => l) [16, 0, 0]
      (GetAccountKey (fun l => l) (List.replicate 20 0)) [] [[131, 16, 0, 0]] =
      (true, none) :=
  verifyProofValue_absence (fun l => l) [16, 0, 0]
    (GetAccountKey (fun l => l) (List.replicate 20 0)) [[131, 16, 0, 0]]
    (by decide)
